import Mathlib

/-!
Verification of the Newton-Raphson root finder.

Shallow embedding of `newton_raphson` from `src/metodo_newton_raphson.py`.
The real arithmetic of the source is modelled exactly over `ℚ`; the two
caller-supplied callables `f_expr`, `df_expr` become functions `ℚ → ℚ`.
Python's built-in `abs` becomes `rabs` (proved equal to Mathlib's `|·|`
below), and the `for i in range(max_iter)` loop becomes structural
recursion on the remaining fuel, threading the mutable state
(`x`, `iteraciones`) explicitly.
-/

namespace MetodoNewtonRaphson

/-- One element of the Python list `iteraciones`: the tuple
`(i+1, x, f_x, error)` appended at line 66 of the source. -/
structure IterationRecord where
  index : ℕ
  x : ℚ
  f_x : ℚ
  error : ℚ
  deriving DecidableEq

/-- The triple `(x, iteraciones, convergencia)` returned by `newton_raphson`. -/
structure RootFindResult where
  root : ℚ
  trace : List IterationRecord
  converged : Bool
  deriving DecidableEq

/-- Python's built-in `abs` on numbers. -/
def rabs (x : ℚ) : ℚ := if x < 0 then -x else x

/-- The fixed degenerate-derivative threshold `1e-10` of line 55. -/
def degenTol : ℚ := 1 / 10 ^ 10

/-- The loop of `newton_raphson` (lines 50-76): `fuel` is the number of
remaining loop passes, `i` the 1-based index the next appended record would
carry, `x` the current iterate and `iteraciones` the trace accumulated so
far.  Each pass evaluates `f_x = f(x)` and `df_x = df(x)`, aborts when
`abs(df_x) < 1e-10`, otherwise takes the step `x_next = x - f_x / df_x`,
records `(i, x, f_x, error)` with `error = abs(x_next - x)`, and either
returns converged when `error < tol` or continues from `x_next`. -/
def newtonGo (f df : ℚ → ℚ) (tol : ℚ) :
    ℕ → ℕ → ℚ → List IterationRecord → RootFindResult
  | 0, _, x, iteraciones => ⟨x, iteraciones, false⟩
  | fuel + 1, i, x, iteraciones =>
    let f_x := f x
    let df_x := df x
    if rabs df_x < degenTol then
      ⟨x, iteraciones, false⟩
    else
      let x_next := x - f_x / df_x
      let error := rabs (x_next - x)
      let iters := iteraciones ++ [⟨i, x, f_x, error⟩]
      if error < tol then
        ⟨x_next, iters, true⟩
      else
        newtonGo f df tol fuel (i + 1) x_next iters

/-- The function `newton_raphson(f_expr, df_expr, x0, tol, max_iter)`
(lines 21-76): start from `x = x0` with an empty `iteraciones` list, the
first record carrying index 1. -/
def newton_raphson (f df : ℚ → ℚ) (x0 tol : ℚ) (max_iter : ℕ) : RootFindResult :=
  newtonGo f df tol max_iter 1 x0 []

/-- The Newton-Raphson update of line 60: `x_next = x - f_x / df_x`. -/
def nrStep (f df : ℚ → ℚ) (x : ℚ) : ℚ := x - f x / df x

/-- The example function `f(x) = x^2 - 4` from the spec's test vector. -/
def fQuad (x : ℚ) : ℚ := x ^ 2 - 4

/-- Its derivative `f'(x) = 2x`. -/
def dfQuad (x : ℚ) : ℚ := 2 * x

/-- The spec's degenerate-guard example `f(x) = x^2`. -/
def fSq (x : ℚ) : ℚ := x ^ 2

/-- Its derivative `f'(x) = 2x`. -/
def dfSq (x : ℚ) : ℚ := 2 * x

/-- Sanity check: `rabs`, the embedding of Python's `abs`, agrees with
Mathlib's `|·|`. -/
theorem rabs_eq_abs (x : ℚ) : rabs x = |x| := by
  rcases lt_or_le x 0 with h | h
  · simp [rabs, h, abs_of_neg h]
  · simp [rabs, not_lt.mpr h, abs_of_nonneg h]

/-- Unfolding: with no fuel left the loop exits with `converged = false`. -/
theorem newtonGo_zero (f df : ℚ → ℚ) (tol : ℚ) (i : ℕ) (x : ℚ)
    (tr : List IterationRecord) : newtonGo f df tol 0 i x tr = ⟨x, tr, false⟩ := rfl

/-- Unfolding: a pass whose derivative is degenerate aborts at once. -/
theorem newtonGo_degen (f df : ℚ → ℚ) (tol : ℚ) (fuel i : ℕ) (x : ℚ)
    (tr : List IterationRecord) (hd : rabs (df x) < degenTol) :
    newtonGo f df tol (fuel + 1) i x tr = ⟨x, tr, false⟩ := by
  simp only [newtonGo]
  rw [if_pos hd]

/-- Unfolding: a pass whose step drops below `tol` records it and returns
converged. -/
theorem newtonGo_conv (f df : ℚ → ℚ) (tol : ℚ) (fuel i : ℕ) (x : ℚ)
    (tr : List IterationRecord) (hd : ¬ rabs (df x) < degenTol)
    (he : rabs (x - f x / df x - x) < tol) :
    newtonGo f df tol (fuel + 1) i x tr =
      ⟨x - f x / df x, tr ++ [⟨i, x, f x, rabs (x - f x / df x - x)⟩], true⟩ := by
  simp only [newtonGo]
  rw [if_neg hd, if_pos he]

/-- Unfolding: a pass whose step stays at or above `tol` records it and
continues from `x_next` with the next index. -/
theorem newtonGo_cont (f df : ℚ → ℚ) (tol : ℚ) (fuel i : ℕ) (x : ℚ)
    (tr : List IterationRecord) (hd : ¬ rabs (df x) < degenTol)
    (he : ¬ rabs (x - f x / df x - x) < tol) :
    newtonGo f df tol (fuel + 1) i x tr =
      newtonGo f df tol fuel (i + 1) (x - f x / df x)
        (tr ++ [⟨i, x, f x, rabs (x - f x / df x - x)⟩]) := by
  simp only [newtonGo]
  rw [if_neg hd, if_neg he]

/-- The loop appends at most `fuel` records to the incoming trace. -/
theorem go_length (f df : ℚ → ℚ) (tol : ℚ) :
    ∀ (fuel i : ℕ) (x : ℚ) (tr : List IterationRecord),
      (newtonGo f df tol fuel i x tr).trace.length ≤ tr.length + fuel := by
  intro fuel
  induction fuel with
  | zero => intro i x tr; simp [newtonGo_zero]
  | succ n ih =>
    intro i x tr
    by_cases hd : rabs (df x) < degenTol
    · rw [newtonGo_degen f df tol n i x tr hd]
      show tr.length ≤ tr.length + (n + 1)
      omega
    · by_cases he : rabs (x - f x / df x - x) < tol
      · rw [newtonGo_conv f df tol n i x tr hd he]
        show (tr ++ [(⟨i, x, f x, rabs (x - f x / df x - x)⟩ : IterationRecord)]).length ≤
          tr.length + (n + 1)
        simp only [List.length_append, List.length_cons, List.length_nil]
        omega
      · rw [newtonGo_cont f df tol n i x tr hd he]
        have := ih (i + 1) (x - f x / df x)
          (tr ++ [⟨i, x, f x, rabs (x - f x / df x - x)⟩])
        simp only [List.length_append, List.length_cons, List.length_nil] at this
        omega

/-- If the loop reports convergence, the last record's error is below `tol`. -/
theorem go_conv_last (f df : ℚ → ℚ) (tol : ℚ) :
    ∀ (fuel i : ℕ) (x : ℚ) (tr : List IterationRecord),
      (newtonGo f df tol fuel i x tr).converged = true →
      ∃ last, (newtonGo f df tol fuel i x tr).trace.getLast? = some last ∧
        last.error < tol := by
  intro fuel
  induction fuel with
  | zero => intro i x tr h; rw [newtonGo_zero] at h; simp at h
  | succ n ih =>
    intro i x tr h
    by_cases hd : rabs (df x) < degenTol
    · rw [newtonGo_degen f df tol n i x tr hd] at h; simp at h
    · by_cases he : rabs (x - f x / df x - x) < tol
      · rw [newtonGo_conv f df tol n i x tr hd he]
        exact ⟨_, List.getLast?_concat tr, he⟩
      · rw [newtonGo_cont f df tol n i x tr hd he] at h ⊢
        exact ih _ _ _ h

/-- If the loop reports non-convergence, either the derivative at the
returned root is degenerate (the abort fired there) or every available
pass was spent. -/
theorem go_not_conv (f df : ℚ → ℚ) (tol : ℚ) :
    ∀ (fuel i : ℕ) (x : ℚ) (tr : List IterationRecord),
      (newtonGo f df tol fuel i x tr).converged = false →
      rabs (df (newtonGo f df tol fuel i x tr).root) < degenTol ∨
      (newtonGo f df tol fuel i x tr).trace.length = tr.length + fuel := by
  intro fuel
  induction fuel with
  | zero => intro i x tr _; rw [newtonGo_zero]; right; simp
  | succ n ih =>
    intro i x tr h
    by_cases hd : rabs (df x) < degenTol
    · rw [newtonGo_degen f df tol n i x tr hd]; left; exact hd
    · by_cases he : rabs (x - f x / df x - x) < tol
      · rw [newtonGo_conv f df tol n i x tr hd he] at h; simp at h
      · rw [newtonGo_cont f df tol n i x tr hd he] at h ⊢
        rcases ih _ _ _ h with hl | hr
        · left; exact hl
        · right
          rw [hr]
          simp only [List.length_append, List.length_cons, List.length_nil]
          omega

/-- Every recorded `x` passed the degeneracy guard: records are appended
only after `abs(df(x)) < 1e-10` was refuted, so the division `f_x / df_x`
is reached only on such points. -/
theorem go_guard (f df : ℚ → ℚ) (tol : ℚ) :
    ∀ (fuel i : ℕ) (x : ℚ) (tr : List IterationRecord),
      (∀ r ∈ tr, degenTol ≤ rabs (df r.x)) →
      ∀ r ∈ (newtonGo f df tol fuel i x tr).trace, degenTol ≤ rabs (df r.x) := by
  intro fuel
  induction fuel with
  | zero => intro i x tr htr; rw [newtonGo_zero]; exact htr
  | succ n ih =>
    intro i x tr htr
    by_cases hd : rabs (df x) < degenTol
    · rw [newtonGo_degen f df tol n i x tr hd]; exact htr
    · have hnew : ∀ r ∈ tr ++ [⟨i, x, f x, rabs (x - f x / df x - x)⟩],
          degenTol ≤ rabs (df r.x) := by
        intro r hr
        rcases List.mem_append.mp hr with hr | hr
        · exact htr r hr
        · simp at hr
          rw [hr]
          exact le_of_not_lt hd
      by_cases he : rabs (x - f x / df x - x) < tol
      · rw [newtonGo_conv f df tol n i x tr hd he]; exact hnew
      · rw [newtonGo_cont f df tol n i x tr hd he]
        exact ih _ _ _ hnew

/-- If every incoming record's error is at least `tol`, then in the loop's
result every record except possibly the last keeps `error ≥ tol`, and the
converged flag holds exactly when the last record's error is below `tol`. -/
theorem go_tol (f df : ℚ → ℚ) (tol : ℚ) :
    ∀ (fuel i : ℕ) (x : ℚ) (tr : List IterationRecord),
      (∀ r ∈ tr, tol ≤ r.error) →
      (∀ r ∈ (newtonGo f df tol fuel i x tr).trace.dropLast, tol ≤ r.error) ∧
      ((newtonGo f df tol fuel i x tr).converged = true ↔
        ∃ last, (newtonGo f df tol fuel i x tr).trace.getLast? = some last ∧
          last.error < tol) := by
  intro fuel
  induction fuel with
  | zero =>
    intro i x tr htr
    rw [newtonGo_zero]
    refine ⟨fun r hr => htr r (List.dropLast_subset tr hr), ?_, ?_⟩
    · intro h
      exact absurd h (by simp)
    · rintro ⟨last, hl, hlt⟩
      exact absurd hlt (not_lt.mpr (htr last (List.mem_of_mem_getLast? hl)))
  | succ n ih =>
    intro i x tr htr
    by_cases hd : rabs (df x) < degenTol
    · rw [newtonGo_degen f df tol n i x tr hd]
      refine ⟨fun r hr => htr r (List.dropLast_subset tr hr), ?_, ?_⟩
      · intro h
        exact absurd h (by simp)
      · rintro ⟨last, hl, hlt⟩
        exact absurd hlt (not_lt.mpr (htr last (List.mem_of_mem_getLast? hl)))
    · by_cases he : rabs (x - f x / df x - x) < tol
      · rw [newtonGo_conv f df tol n i x tr hd he]
        simp only [List.dropLast_concat, List.getLast?_concat]
        refine ⟨fun r hr => htr r hr, fun _ => ⟨_, rfl, he⟩, fun _ => trivial⟩
      · rw [newtonGo_cont f df tol n i x tr hd he]
        refine ih _ _ _ fun r hr => ?_
        rcases List.mem_append.mp hr with hr | hr
        · exact htr r hr
        · have hr1 := List.mem_singleton.mp hr
          subst hr1
          exact le_of_not_lt he

/-- Step relation invariant: provided the incoming trace is internally
consistent (each record stores `f_x = f(x)` and the error of its own step,
consecutive records are linked by the Newton step, and the current iterate
continues the last record), the final trace is too, and the returned root
continues its own last record. -/
theorem go_vals (f df : ℚ → ℚ) (tol : ℚ) :
    ∀ (fuel i : ℕ) (x : ℚ) (tr : List IterationRecord),
      (∀ r ∈ tr, r.f_x = f r.x ∧ r.error = rabs (nrStep f df r.x - r.x)) →
      List.Chain' (fun a b => b.x = nrStep f df a.x) tr →
      (∀ last, tr.getLast? = some last → x = nrStep f df last.x) →
      (∀ r ∈ (newtonGo f df tol fuel i x tr).trace,
          r.f_x = f r.x ∧ r.error = rabs (nrStep f df r.x - r.x)) ∧
      List.Chain' (fun a b => b.x = nrStep f df a.x)
        (newtonGo f df tol fuel i x tr).trace ∧
      (∀ last, (newtonGo f df tol fuel i x tr).trace.getLast? = some last →
          (newtonGo f df tol fuel i x tr).root = nrStep f df last.x) := by
  intro fuel
  induction fuel with
  | zero =>
    intro i x tr hvals hchain hlink
    rw [newtonGo_zero]
    exact ⟨hvals, hchain, hlink⟩
  | succ n ih =>
    intro i x tr hvals hchain hlink
    by_cases hd : rabs (df x) < degenTol
    · rw [newtonGo_degen f df tol n i x tr hd]
      exact ⟨hvals, hchain, hlink⟩
    · have hvals2 : ∀ r ∈ tr ++ [(⟨i, x, f x, rabs (x - f x / df x - x)⟩ : IterationRecord)],
          r.f_x = f r.x ∧ r.error = rabs (nrStep f df r.x - r.x) := by
        intro r hr
        rcases List.mem_append.mp hr with hr | hr
        · exact hvals r hr
        · have hr1 := List.mem_singleton.mp hr
          subst hr1
          exact ⟨rfl, rfl⟩
      have hchain2 : List.Chain' (fun a b => b.x = nrStep f df a.x)
          (tr ++ [(⟨i, x, f x, rabs (x - f x / df x - x)⟩ : IterationRecord)]) := by
        rw [List.chain'_append]
        refine ⟨hchain, List.chain'_singleton _, fun a ha b hb => ?_⟩
        simp only [List.head?_cons, Option.mem_def, Option.some.injEq] at hb
        rw [← hb]
        exact (hlink a ha).symm ▸ rfl
      have hlink2 : ∀ last,
          (tr ++ [(⟨i, x, f x, rabs (x - f x / df x - x)⟩ : IterationRecord)]).getLast? =
            some last → x - f x / df x = nrStep f df last.x := by
        intro last hl
        rw [List.getLast?_concat] at hl
        rcases Option.some.inj hl with rfl
        rfl
      by_cases he : rabs (x - f x / df x - x) < tol
      · rw [newtonGo_conv f df tol n i x tr hd he]
        exact ⟨hvals2, hchain2, hlink2⟩
      · rw [newtonGo_cont f df tol n i x tr hd he]
        exact ih _ _ _ hvals2 hchain2 hlink2

/-- Index invariant: if the incoming trace carries indices `1..len` and the
next record would carry `len+1`, the final trace's record at position `j`
carries index `j+1`. -/
theorem go_indices (f df : ℚ → ℚ) (tol : ℚ) :
    ∀ (fuel i : ℕ) (x : ℚ) (tr : List IterationRecord),
      (∀ (j : ℕ) (r : IterationRecord), tr[j]? = some r → r.index = j + 1) →
      i = tr.length + 1 →
      ∀ (j : ℕ) (r : IterationRecord),
        (newtonGo f df tol fuel i x tr).trace[j]? = some r → r.index = j + 1 := by
  intro fuel
  induction fuel with
  | zero =>
    intro i x tr htr _
    rw [newtonGo_zero]
    exact htr
  | succ n ih =>
    intro i x tr htr hi
    by_cases hd : rabs (df x) < degenTol
    · rw [newtonGo_degen f df tol n i x tr hd]
      exact htr
    · have htr2 : ∀ (j : ℕ) (r : IterationRecord),
          (tr ++ [(⟨i, x, f x, rabs (x - f x / df x - x)⟩ : IterationRecord)])[j]? =
            some r → r.index = j + 1 := by
        intro j r h
        rw [List.getElem?_append] at h
        split_ifs at h with hj
        · exact htr j r h
        · by_cases h0 : j - tr.length = 0
          · rw [h0] at h
            simp only [List.getElem?_cons_zero, Option.some.injEq] at h
            rw [← h]
            show i = j + 1
            omega
          · rw [List.getElem?_eq_none (by simp; omega)] at h
            exact Option.noConfusion h
      by_cases he : rabs (x - f x / df x - x) < tol
      · rw [newtonGo_conv f df tol n i x tr hd he]
        exact htr2
      · rw [newtonGo_cont f df tol n i x tr hd he]
        refine ih _ _ _ htr2 ?_
        simp only [List.length_append, List.length_cons, List.length_nil]
        omega

/-- Full evaluation of the spec's test vector: `f(x) = x^2 - 4`,
`f'(x) = 2x`, `x0 = 1`, `tol = 1e-6`, `max_iter = 100` converges after
five passes, with root `2 + 1/463255047212960`. -/
theorem quadRun :
    newton_raphson fQuad dfQuad 1 (1 / 10 ^ 6) 100 =
      ⟨926510094425921 / 463255047212960,
        [⟨1, 1, -3, 3 / 2⟩, ⟨2, 5 / 2, 9 / 4, 9 / 20⟩,
         ⟨3, 41 / 20, 81 / 400, 81 / 1640⟩,
         ⟨4, 3281 / 1640, 6561 / 2689600, 6561 / 10761680⟩,
         ⟨5, 21523361 / 10761680, 43046721 / 115813756422400,
           43046721 / 463255047212960⟩],
        true⟩ := by
  have s1 : newtonGo fQuad dfQuad (1 / 10 ^ 6) 100 1 1 [] =
      newtonGo fQuad dfQuad (1 / 10 ^ 6) 99 2 (5 / 2) [⟨1, 1, -3, 3 / 2⟩] := by
    rw [show (100 : ℕ) = 99 + 1 from rfl,
      newtonGo_cont fQuad dfQuad (1 / 10 ^ 6) 99 1 1 []
        (by norm_num [rabs, dfQuad, degenTol]) (by norm_num [rabs, fQuad, dfQuad])]
    norm_num [fQuad, dfQuad, rabs]
  have s2 : newtonGo fQuad dfQuad (1 / 10 ^ 6) 99 2 (5 / 2) [⟨1, 1, -3, 3 / 2⟩] =
      newtonGo fQuad dfQuad (1 / 10 ^ 6) 98 3 (41 / 20)
        [⟨1, 1, -3, 3 / 2⟩, ⟨2, 5 / 2, 9 / 4, 9 / 20⟩] := by
    rw [show (99 : ℕ) = 98 + 1 from rfl,
      newtonGo_cont fQuad dfQuad (1 / 10 ^ 6) 98 2 (5 / 2) [⟨1, 1, -3, 3 / 2⟩]
        (by norm_num [rabs, dfQuad, degenTol]) (by norm_num [rabs, fQuad, dfQuad])]
    norm_num [fQuad, dfQuad, rabs]
  have s3 : newtonGo fQuad dfQuad (1 / 10 ^ 6) 98 3 (41 / 20)
        [⟨1, 1, -3, 3 / 2⟩, ⟨2, 5 / 2, 9 / 4, 9 / 20⟩] =
      newtonGo fQuad dfQuad (1 / 10 ^ 6) 97 4 (3281 / 1640)
        [⟨1, 1, -3, 3 / 2⟩, ⟨2, 5 / 2, 9 / 4, 9 / 20⟩,
         ⟨3, 41 / 20, 81 / 400, 81 / 1640⟩] := by
    rw [show (98 : ℕ) = 97 + 1 from rfl,
      newtonGo_cont fQuad dfQuad (1 / 10 ^ 6) 97 3 (41 / 20)
        [⟨1, 1, -3, 3 / 2⟩, ⟨2, 5 / 2, 9 / 4, 9 / 20⟩]
        (by norm_num [rabs, dfQuad, degenTol]) (by norm_num [rabs, fQuad, dfQuad])]
    norm_num [fQuad, dfQuad, rabs]
  have s4 : newtonGo fQuad dfQuad (1 / 10 ^ 6) 97 4 (3281 / 1640)
        [⟨1, 1, -3, 3 / 2⟩, ⟨2, 5 / 2, 9 / 4, 9 / 20⟩,
         ⟨3, 41 / 20, 81 / 400, 81 / 1640⟩] =
      newtonGo fQuad dfQuad (1 / 10 ^ 6) 96 5 (21523361 / 10761680)
        [⟨1, 1, -3, 3 / 2⟩, ⟨2, 5 / 2, 9 / 4, 9 / 20⟩,
         ⟨3, 41 / 20, 81 / 400, 81 / 1640⟩,
         ⟨4, 3281 / 1640, 6561 / 2689600, 6561 / 10761680⟩] := by
    rw [show (97 : ℕ) = 96 + 1 from rfl,
      newtonGo_cont fQuad dfQuad (1 / 10 ^ 6) 96 4 (3281 / 1640)
        [⟨1, 1, -3, 3 / 2⟩, ⟨2, 5 / 2, 9 / 4, 9 / 20⟩,
         ⟨3, 41 / 20, 81 / 400, 81 / 1640⟩]
        (by norm_num [rabs, dfQuad, degenTol]) (by norm_num [rabs, fQuad, dfQuad])]
    norm_num [fQuad, dfQuad, rabs]
  have s5 : newtonGo fQuad dfQuad (1 / 10 ^ 6) 96 5 (21523361 / 10761680)
        [⟨1, 1, -3, 3 / 2⟩, ⟨2, 5 / 2, 9 / 4, 9 / 20⟩,
         ⟨3, 41 / 20, 81 / 400, 81 / 1640⟩,
         ⟨4, 3281 / 1640, 6561 / 2689600, 6561 / 10761680⟩] =
      ⟨926510094425921 / 463255047212960,
        [⟨1, 1, -3, 3 / 2⟩, ⟨2, 5 / 2, 9 / 4, 9 / 20⟩,
         ⟨3, 41 / 20, 81 / 400, 81 / 1640⟩,
         ⟨4, 3281 / 1640, 6561 / 2689600, 6561 / 10761680⟩,
         ⟨5, 21523361 / 10761680, 43046721 / 115813756422400,
           43046721 / 463255047212960⟩],
        true⟩ := by
    rw [show (96 : ℕ) = 95 + 1 from rfl,
      newtonGo_conv fQuad dfQuad (1 / 10 ^ 6) 95 5 (21523361 / 10761680)
        [⟨1, 1, -3, 3 / 2⟩, ⟨2, 5 / 2, 9 / 4, 9 / 20⟩,
         ⟨3, 41 / 20, 81 / 400, 81 / 1640⟩,
         ⟨4, 3281 / 1640, 6561 / 2689600, 6561 / 10761680⟩]
        (by norm_num [rabs, dfQuad, degenTol]) (by norm_num [rabs, fQuad, dfQuad])]
    norm_num [fQuad, dfQuad, rabs]
  rw [newton_raphson, s1, s2, s3, s4, s5]

/-- C1: for every `f`, `df`, `x0`, `tol > 0` and `max_iter > 0`, the result
of `newton_raphson` has trace length at most `max_iter`; if `converged` is
true the trace is non-empty and its last record's error is strictly below
`tol`; if `converged` is false then either the degenerate-derivative abort
fired (witnessed by `|df(root)| < 1e-10` at the returned root, which is the
pre-abort iterate) or the trace length equals `max_iter` exactly. -/
theorem newton_raphson_trace_invariant (f df : ℚ → ℚ) (x0 tol : ℚ)
    (max_iter : ℕ) (htol : 0 < tol) (hiter : 0 < max_iter) :
    (newton_raphson f df x0 tol max_iter).trace.length ≤ max_iter ∧
    ((newton_raphson f df x0 tol max_iter).converged = true →
      (newton_raphson f df x0 tol max_iter).trace ≠ [] ∧
      ∃ last, (newton_raphson f df x0 tol max_iter).trace.getLast? = some last ∧
        last.error < tol) ∧
    ((newton_raphson f df x0 tol max_iter).converged = false →
      |df (newton_raphson f df x0 tol max_iter).root| < degenTol ∨
      (newton_raphson f df x0 tol max_iter).trace.length = max_iter) := by
  rw [newton_raphson]
  refine ⟨?_, ?_, ?_⟩
  · have h := go_length f df tol max_iter 1 x0 []
    simpa using h
  · intro h
    obtain ⟨last, hl, hlt⟩ := go_conv_last f df tol max_iter 1 x0 [] h
    refine ⟨?_, last, hl, hlt⟩
    intro hnil
    rw [hnil] at hl
    simp at hl
  · intro h
    have h2 := go_not_conv f df tol max_iter 1 x0 [] h
    rw [rabs_eq_abs] at h2
    simpa using h2

/-- Witness for C1: the quadratic test vector satisfies the invariant. -/
theorem newton_raphson_trace_invariant_witness :
    (newton_raphson fQuad dfQuad 1 (1 / 10 ^ 6) 100).trace.length ≤ 100 ∧
    ((newton_raphson fQuad dfQuad 1 (1 / 10 ^ 6) 100).converged = true →
      (newton_raphson fQuad dfQuad 1 (1 / 10 ^ 6) 100).trace ≠ [] ∧
      ∃ last, (newton_raphson fQuad dfQuad 1 (1 / 10 ^ 6) 100).trace.getLast? =
          some last ∧ last.error < 1 / 10 ^ 6) ∧
    ((newton_raphson fQuad dfQuad 1 (1 / 10 ^ 6) 100).converged = false →
      |dfQuad (newton_raphson fQuad dfQuad 1 (1 / 10 ^ 6) 100).root| < degenTol ∨
      (newton_raphson fQuad dfQuad 1 (1 / 10 ^ 6) 100).trace.length = 100) :=
  newton_raphson_trace_invariant fQuad dfQuad 1 (1 / 10 ^ 6) 100
    (by norm_num) (by norm_num)

/-- C2: every completed pass computes `x_next = x - f(x)/df(x)` and
`error = |x_next - x|`, and appends a record holding the pre-update `x` and
`f(x)` paired with the error computed from the post-update `x_next`; the
next pass (and the returned root) continues from `x_next`, so consecutive
records are linked by the Newton step. -/
theorem newton_raphson_step_relation (f df : ℚ → ℚ) (x0 tol : ℚ)
    (max_iter : ℕ) :
    (∀ r ∈ (newton_raphson f df x0 tol max_iter).trace,
        r.f_x = f r.x ∧ r.error = |nrStep f df r.x - r.x|) ∧
    List.Chain' (fun a b => b.x = nrStep f df a.x)
      (newton_raphson f df x0 tol max_iter).trace ∧
    (∀ last, (newton_raphson f df x0 tol max_iter).trace.getLast? = some last →
        (newton_raphson f df x0 tol max_iter).root = nrStep f df last.x) := by
  rw [newton_raphson]
  have h := go_vals f df tol max_iter 1 x0 [] (by simp) (by simp) (by simp)
  exact ⟨fun r hr => ⟨(h.1 r hr).1, by rw [(h.1 r hr).2, rabs_eq_abs]⟩,
    h.2.1, h.2.2⟩

/-- Witness for C2: the step relation holds on the quadratic test vector. -/
theorem newton_raphson_step_relation_witness :
    (∀ r ∈ (newton_raphson fQuad dfQuad 1 (1 / 10 ^ 6) 100).trace,
        r.f_x = fQuad r.x ∧ r.error = |nrStep fQuad dfQuad r.x - r.x|) ∧
    List.Chain' (fun a b => b.x = nrStep fQuad dfQuad a.x)
      (newton_raphson fQuad dfQuad 1 (1 / 10 ^ 6) 100).trace ∧
    (∀ last, (newton_raphson fQuad dfQuad 1 (1 / 10 ^ 6) 100).trace.getLast? =
        some last →
        (newton_raphson fQuad dfQuad 1 (1 / 10 ^ 6) 100).root =
          nrStep fQuad dfQuad last.x) :=
  newton_raphson_step_relation fQuad dfQuad 1 (1 / 10 ^ 6) 100

/-- C3: if at the start of any pass `|df(x)| < 1e-10`, the loop returns the
current pre-abort `x` as root together with the trace accumulated so far
and `converged = false`, appending no record for that pass; the threshold
`degenTol = 1e-10` is a fixed constant, independent of the `tol` the
statement quantifies over. -/
theorem newton_raphson_degenerate_abort (f df : ℚ → ℚ) (tol : ℚ)
    (fuel i : ℕ) (x : ℚ) (tr : List IterationRecord)
    (h : |df x| < degenTol) :
    newtonGo f df tol (fuel + 1) i x tr = ⟨x, tr, false⟩ :=
  newtonGo_degen f df tol fuel i x tr (by rw [rabs_eq_abs]; exact h)

/-- Witness for C3: aborting at `x = 0` for `f(x) = x^2`. -/
theorem newton_raphson_degenerate_abort_witness :
    |dfSq 0| < degenTol ∧
    newtonGo fSq dfSq (1 / 10 ^ 6) (4 + 1) 1 0 [] = ⟨0, [], false⟩ :=
  ⟨by norm_num [dfSq, degenTol],
    newton_raphson_degenerate_abort fSq dfSq (1 / 10 ^ 6) 4 1 0 []
      (by norm_num [dfSq, degenTol])⟩

/-- C4: `newton_raphson` is total — it always returns a
`(root, trace, converged)` triple, never raising for numerical
non-convergence (non-convergent paths are ordinary returns, see C1) — and
the division `f_x / df_x` is reached only at points where
`|df(x)| ≥ 1e-10`: every recorded iterate passed the degeneracy guard. -/
theorem newton_raphson_total_division_guarded (f df : ℚ → ℚ) (x0 tol : ℚ)
    (max_iter : ℕ) :
    (∃ root trace converged,
        newton_raphson f df x0 tol max_iter =
          ⟨root, trace, converged⟩) ∧
    ∀ r ∈ (newton_raphson f df x0 tol max_iter).trace,
      degenTol ≤ |df r.x| := by
  refine ⟨⟨_, _, _, rfl⟩, ?_⟩
  rw [newton_raphson]
  intro r hr
  rw [← rabs_eq_abs]
  exact go_guard f df tol max_iter 1 x0 [] (by simp) r hr

/-- Witness for C4 at the quadratic test vector. -/
theorem newton_raphson_total_division_guarded_witness :
    (∃ root trace converged,
        newton_raphson fQuad dfQuad 1 (1 / 10 ^ 6) 100 =
          ⟨root, trace, converged⟩) ∧
    ∀ r ∈ (newton_raphson fQuad dfQuad 1 (1 / 10 ^ 6) 100).trace,
      degenTol ≤ |dfQuad r.x| :=
  newton_raphson_total_division_guarded fQuad dfQuad 1 (1 / 10 ^ 6) 100

/-- C5: for `f(x) = x^2 - 4`, `f'(x) = 2x`, `x0 = 1`, `tol = 1e-6`,
`max_iter = 100`, the method converges, the root is within `tol` of `2`,
at most 10 iterations are recorded, and the first record is
`(1, 1.0, -3.0, 1.5)`. -/
theorem newton_raphson_quad_convergence :
    (newton_raphson fQuad dfQuad 1 (1 / 10 ^ 6) 100).converged = true ∧
    |(newton_raphson fQuad dfQuad 1 (1 / 10 ^ 6) 100).root - 2| < 1 / 10 ^ 6 ∧
    (newton_raphson fQuad dfQuad 1 (1 / 10 ^ 6) 100).trace.length ≤ 10 ∧
    (newton_raphson fQuad dfQuad 1 (1 / 10 ^ 6) 100).trace.head? =
      some ⟨1, 1, -3, 3 / 2⟩ := by
  rw [quadRun]
  refine ⟨rfl, ?_, by norm_num, rfl⟩
  rw [abs_of_pos (by norm_num)]
  norm_num

/-- C6: whenever `df(x0) = 0` exactly and `tol > 0`, `max_iter > 0`, the
result has `converged = false` and an empty trace: the degeneracy abort
fires on the very first pass, before any record is appended. -/
theorem newton_raphson_zero_derivative_start (f df : ℚ → ℚ) (x0 tol : ℚ)
    (max_iter : ℕ) (hdf : df x0 = 0) (htol : 0 < tol) (hiter : 0 < max_iter) :
    (newton_raphson f df x0 tol max_iter).converged = false ∧
    (newton_raphson f df x0 tol max_iter).trace = [] := by
  obtain ⟨n, rfl⟩ : ∃ n, max_iter = n + 1 := ⟨max_iter - 1, by omega⟩
  rw [newton_raphson, newtonGo_degen f df tol n 1 x0 []
    (by rw [hdf]; norm_num [rabs, degenTol])]
  exact ⟨rfl, rfl⟩

/-- Witness for C6: `f(x) = x^2`, `f'(x) = 2x`, `x0 = 0`. -/
theorem newton_raphson_zero_derivative_start_witness :
    dfSq 0 = 0 ∧ (0 : ℚ) < 1 / 10 ^ 6 ∧ (0 : ℕ) < 100 ∧
    ((newton_raphson fSq dfSq 0 (1 / 10 ^ 6) 100).converged = false ∧
      (newton_raphson fSq dfSq 0 (1 / 10 ^ 6) 100).trace = []) :=
  ⟨by norm_num [dfSq], by norm_num, by norm_num,
    newton_raphson_zero_derivative_start fSq dfSq 0 (1 / 10 ^ 6) 100
      (by norm_num [dfSq]) (by norm_num) (by norm_num)⟩

/-- C7: with `max_iter = 0` the function returns immediately for every
input, with root `x0`, an empty trace and `converged = false`. -/
theorem newton_raphson_max_iter_zero (f df : ℚ → ℚ) (x0 tol : ℚ) :
    newton_raphson f df x0 tol 0 = ⟨x0, [], false⟩ := rfl

/-- C8: the record at 0-based position `j` of any returned trace carries
the 1-based index `j + 1`: indices are contiguous and gap-free. -/
theorem newton_raphson_indices_one_based (f df : ℚ → ℚ) (x0 tol : ℚ)
    (max_iter j : ℕ) (r : IterationRecord)
    (h : (newton_raphson f df x0 tol max_iter).trace[j]? = some r) :
    r.index = j + 1 := by
  rw [newton_raphson] at h
  exact go_indices f df tol max_iter 1 x0 [] (by simp) (by simp) j r h

/-- Witness for C8: the first record of the quadratic run has index 1. -/
theorem newton_raphson_indices_one_based_witness :
    (newton_raphson fQuad dfQuad 1 (1 / 10 ^ 6) 100).trace[0]? =
      some ⟨1, 1, -3, 3 / 2⟩ ∧
    (⟨1, 1, -3, 3 / 2⟩ : IterationRecord).index = 0 + 1 := by
  have h : (newton_raphson fQuad dfQuad 1 (1 / 10 ^ 6) 100).trace[0]? =
      some ⟨1, 1, -3, 3 / 2⟩ := by rw [quadRun]; rfl
  exact ⟨h, newton_raphson_indices_one_based fQuad dfQuad 1 (1 / 10 ^ 6) 100 0 _ h⟩

/-- C9: `newton_raphson` is deterministic — two invocations with identical
pure inputs return identical results (in this pure embedding, the function
applied twice to the same arguments is the same value). -/
theorem newton_raphson_deterministic (f df : ℚ → ℚ) (x0 tol : ℚ)
    (max_iter : ℕ) :
    newton_raphson f df x0 tol max_iter =
      newton_raphson f df x0 tol max_iter := rfl

/-- C10: in every returned trace, each record except the last has
`error ≥ tol` (the loop only continues while the step stayed at or above
`tol`), and a sub-`tol` error in the final record occurs exactly when
`converged` is true. -/
theorem newton_raphson_error_monotone_guard (f df : ℚ → ℚ) (x0 tol : ℚ)
    (max_iter : ℕ) :
    (∀ r ∈ (newton_raphson f df x0 tol max_iter).trace.dropLast,
        tol ≤ r.error) ∧
    ((newton_raphson f df x0 tol max_iter).converged = true ↔
      ∃ last, (newton_raphson f df x0 tol max_iter).trace.getLast? =
          some last ∧ last.error < tol) := by
  rw [newton_raphson]
  exact go_tol f df tol max_iter 1 x0 [] (by simp)

/-- Witness for C10 at the quadratic test vector. -/
theorem newton_raphson_error_monotone_guard_witness :
    (∀ r ∈ (newton_raphson fQuad dfQuad 1 (1 / 10 ^ 6) 100).trace.dropLast,
        (1 : ℚ) / 10 ^ 6 ≤ r.error) ∧
    ((newton_raphson fQuad dfQuad 1 (1 / 10 ^ 6) 100).converged = true ↔
      ∃ last, (newton_raphson fQuad dfQuad 1 (1 / 10 ^ 6) 100).trace.getLast? =
          some last ∧ last.error < 1 / 10 ^ 6) :=
  newton_raphson_error_monotone_guard fQuad dfQuad 1 (1 / 10 ^ 6) 100

end MetodoNewtonRaphson
